import Mathlib

/-!
Verification of the `jupiter-platform-fees` CLI (`src/index.ts`).

The program is a thin orchestration layer: it loads two key-pairs ("user" and
"collector"), snapshots six balances, and dispatches one of four commands
(`accounts-print`, `accounts-create`, `accounts-close`, `swap`).  The
development below is a shallow embedding of the pure decision logic of those
commands: RPC reads (balances, account existence, token-account enumeration)
become explicit inputs, transaction assembly becomes a list of instructions
threaded through the handlers, and JavaScript numeric conversions
(`Number(bigint)`, `Math.floor(x * 0.8)`) are modelled exactly as IEEE-754
double-precision operations on integer inputs.
-/

/-- Addresses / public keys, base58 strings in the source. -/
abbrev Pubkey := String

/-- `MINT_SOL` (src/index.ts:21): the wrapped-native mint. -/
def MINT_SOL : Pubkey := "So11111111111111111111111111111111111111112"

/-- `MINT_USDC` (src/index.ts:22): the stable-token mint. -/
def MINT_USDC : Pubkey := "EPjFWdd5AufqSSqeM2qN1xzybapC8G4wEGGkZwyTDt1v"

/-- `spl.getAssociatedTokenAddress(mint, owner)`: a deterministic derivation of
an address from (mint, owner), modelled as an injective tagging. -/
def getAssociatedTokenAddress (mint owner : Pubkey) : Pubkey :=
  "ata(" ++ mint ++ "," ++ owner ++ ")"

/-- Instructions appended to a transaction by the command handlers. -/
inductive Instruction where
  /-- `spl.createAssociatedTokenAccountInstruction(payer, address, owner, mint)`. -/
  | createATA (payer address owner mint : Pubkey)
  /-- `spl.createTransferInstruction(source, dest, owner, amount)`. -/
  | transferToken (source dest owner : Pubkey) (amount : Nat)
  /-- `spl.createCloseAccountInstruction(account, dest, owner)`. -/
  | closeAccount (account dest owner : Pubkey)
  /-- `SystemProgram.transfer({fromPubkey, lamports, toPubkey})`; the lamports
  field is an `Int` because the source computes it with JavaScript subtraction,
  which can go negative. -/
  | transferNative (fromPubkey toPubkey : Pubkey) (lamports : Int)
deriving DecidableEq, Repr

/-- The observable outcome of a command that assembles one transaction:
either it prints a message without submitting, or it submits the
instruction list with a signer list. -/
inductive Outcome where
  | printed (msg : String)
  | submitted (instructions : List Instruction) (signers : List Pubkey)
deriving DecidableEq, Repr

/-- `signers.add(x)` on a JavaScript `Set`, keyed by signer identity:
identity-deduplicated, insertion-ordered. -/
def addSigner (s : List Pubkey) (k : Pubkey) : List Pubkey :=
  if k ∈ s then s else s ++ [k]

/-- `getTokenBalance` (src/index.ts:166-183): the underlying
`spl.getAccount` lookup either succeeds with an amount or fails with a named
error.  The two recoverable error names are mapped to a zero balance; every
other error is re-thrown. -/
def getTokenBalance (lookup : Except String Nat) : Except String Nat :=
  match lookup with
  | .ok amount => .ok amount
  | .error errName =>
    if errName ≠ "TokenAccountNotFoundError" ∧ errName ≠ "TokenInvalidAccountOwnerError" then
      .error errName
    else
      .ok 0

/-- Fuel-driven binary logarithm (structural recursion so that the kernel can
evaluate it on literals): `log2Aux fuel n = ⌊log₂ n⌋` whenever `n ≤ fuel`. -/
def log2Aux : Nat → Nat → Nat
  | 0, _ => 0
  | fuel + 1, n => if 2 ≤ n then log2Aux fuel (n / 2) + 1 else 0

/-- `⌊log₂ n⌋` (and `0` at `0`). -/
def lg (n : Nat) : Nat := log2Aux n n

/-- Round a natural number to at most 53 significant bits, round-to-nearest
with ties-to-even: the value of the IEEE-754 double nearest to `p`.  This is
the semantics of JavaScript's `Number(bigint)` on non-negative inputs in the
normal range, and (after exact power-of-two rescaling) of rounding a product
of doubles. -/
def roundSig53 (p : Nat) : Nat :=
  if p < 2 ^ 53 then p
  else
    let s := lg p + 1 - 53
    let q := p / 2 ^ s
    let r := p % 2 ^ s
    if r < 2 ^ (s - 1) then q * 2 ^ s
    else if 2 ^ (s - 1) < r then (q + 1) * 2 ^ s
    else if q % 2 = 0 then q * 2 ^ s else (q + 1) * 2 ^ s

/-- The scaled significand of the double literal `0.8`: the IEEE-754 double
nearest to `0.8` is exactly `M08 / 2 ^ 53`. -/
def M08 : Nat := 7205759403792794

/-- `Math.floor(n * 0.8)` on an integer-valued double `n` (src/index.ts:310):
the product `n * 0.8` is the real number `n * M08 / 2 ^ 53` rounded to the
nearest double, i.e. `roundSig53 (n * M08) / 2 ^ 53` after the exact
rescaling by `2 ^ 53`; `Math.floor` then truncates. -/
def jsFloorMul08 (n : Nat) : Nat := roundSig53 (n * M08) / 2 ^ 53

/-- The six-balance snapshot held by the session context. -/
structure Balances where
  solUser : Nat
  solCollector : Nat
  wsolUser : Nat
  wsolCollector : Nat
  usdcUser : Nat
  usdcCollector : Nat
deriving DecidableEq, Repr

/-- The balance snapshot built in `loadScriptInfo` (src/index.ts:130-143):
native balances are stored as returned by `getBalance`; the four token
balances are `bigint`s passed through `Number(...)`, i.e. rounded to the
nearest double. -/
def snapshotBalances (solUser solCollector wsolUserRaw wsolCollectorRaw usdcUserRaw usdcCollectorRaw : Nat) : Balances where
  solUser := solUser
  solCollector := solCollector
  wsolUser := roundSig53 wsolUserRaw
  wsolCollector := roundSig53 wsolCollectorRaw
  usdcUser := roundSig53 usdcUserRaw
  usdcCollector := roundSig53 usdcCollectorRaw

/-- The six human-readable balances printed by `accountsPrint`, modelled in
exact rational arithmetic. -/
structure DisplayBalances where
  userSol : ℚ
  userWsol : ℚ
  userUsdc : ℚ
  collectorSol : ℚ
  collectorWsol : ℚ
  collectorUsdc : ℚ
deriving DecidableEq

/-- `accountsPrint` (src/index.ts:185-203): reads the session context and
prints each balance scaled by the token's decimal factor (`1e9` for native and
wrapped-native, `1e6` for the stable token).  The function only reads `info`,
which the model makes explicit by returning the context unchanged alongside
the displayed values. -/
def accountsPrint (info : Balances) : Balances × DisplayBalances :=
  (info,
    { userSol := (info.solUser : ℚ) / 10 ^ 9
      userWsol := (info.wsolUser : ℚ) / 10 ^ 9
      userUsdc := (info.usdcUser : ℚ) / 10 ^ 6
      collectorSol := (info.solCollector : ℚ) / 10 ^ 9
      collectorWsol := (info.wsolCollector : ℚ) / 10 ^ 9
      collectorUsdc := (info.usdcCollector : ℚ) / 10 ^ 6 })

/-- `accountsCreate` instruction assembly (src/index.ts:209-225): for each
owner in `[user, collector]` and each mint in `[MINT_SOL, MINT_USDC]`, if the
associated account is absent on-chain, append a creation instruction with the
user identity as payer.  `accountExists` abstracts
`connection.getAccountInfo(address) !== null`. -/
def accountsCreateIxs (user collector : Pubkey) (accountExists : Pubkey → Bool) : List Instruction :=
  ([user, collector] : List Pubkey).flatMap fun owner =>
    ([MINT_SOL, MINT_USDC] : List Pubkey).flatMap fun mint =>
      let address := getAssociatedTokenAddress mint owner
      if accountExists address then []
      else [Instruction.createATA user address owner mint]

/-- `accountsCreate` (src/index.ts:205-236): if no instruction was assembled
print "Noting to create" (sic), otherwise submit with the user as sole
signer. -/
def accountsCreate (user collector : Pubkey) (accountExists : Pubkey → Bool) : Outcome :=
  let ixs := accountsCreateIxs user collector accountExists
  if ixs.length = 0 then .printed "Noting to create"
  else .submitted ixs [user]

/-- One parsed token account returned by
`getParsedTokenAccountsByOwner` (src/index.ts:251-253). -/
structure TokenAccount where
  pubkey : Pubkey
  mint : Pubkey
  amount : Nat
deriving DecidableEq, Repr

/-- One party processed by `accountsClose`: its identity, its enumerated token
accounts, and its native balance as fetched mid-loop. -/
structure PartyState where
  key : Pubkey
  tokenAccounts : List TokenAccount
  nativeBalance : Nat
deriving DecidableEq, Repr

/-- The transaction being assembled: instruction list plus the signer set. -/
abbrev TxState := List Instruction × List Pubkey

/-- The inner token-account loop of `accountsClose` (src/index.ts:251-268):
for each account, append a transfer of the full balance to the receiver's
associated address when the balance is nonzero and the mint is not the
wrapped-native mint, then unconditionally append a close instruction, and add
the owner to the signer set. -/
def closeTokenAccounts (receiver owner : Pubkey) : List TokenAccount → TxState → TxState
  | [], st => st
  | a :: rest, (ixs, sgns) =>
    let ixs := ixs ++
      (if 0 < a.amount ∧ a.mint ≠ MINT_SOL then
        [Instruction.transferToken a.pubkey (getAssociatedTokenAddress a.mint receiver) owner a.amount]
      else [])
    let ixs := ixs ++ [Instruction.closeAccount a.pubkey receiver owner]
    closeTokenAccounts receiver owner rest (ixs, addSigner sgns owner)

/-- The native-balance sweep of `accountsClose` (src/index.ts:270-283): if the
party's native balance is nonzero, transfer it to the receiver, first deducting
`signers.size * 5000` when the party is the user identity (the fee payer);
then add the party to the signer set.  The deduction uses the signer count as
it stands before this party's own sweep signature is recorded. -/
def sweepNative (user receiver owner : Pubkey) (balance : Nat) (st : TxState) : TxState :=
  if 0 < balance then
    let lamports : Int :=
      if owner = user then (balance : Int) - st.2.length * 5000 else (balance : Int)
    (st.1 ++ [Instruction.transferNative owner receiver lamports], addSigner st.2 owner)
  else st

/-- Processing of one party in `accountsClose`: token-account loop, then
native sweep. -/
def closeParty (user receiver : Pubkey) (st : TxState) (p : PartyState) : TxState :=
  sweepNative user receiver p.key p.nativeBalance
    (closeTokenAccounts receiver p.key p.tokenAccounts st)

/-- `accountsClose` transaction assembly (src/index.ts:244-284): parties are
processed in source order, collector first, then user. -/
def accountsCloseTx (user receiver : Pubkey) (parties : List PartyState) : TxState :=
  parties.foldl (closeParty user receiver) ([], [])

/-- `accountsClose` (src/index.ts:238-296): assemble over
`[collector, user]`; if no instruction was assembled print "Noting to close",
otherwise submit with the accumulated (deduplicated) signer list. -/
def accountsClose (user receiver : Pubkey) (collectorState userState : PartyState) : Outcome :=
  let st := accountsCloseTx user receiver [collectorState, userState]
  if st.1.length = 0 then .printed "Noting to close"
  else .submitted st.1 st.2

/-- The route-request options passed to `jupiter.computeRoutes`. -/
structure SwapOpts where
  inputMint : Pubkey
  outputMint : Pubkey
  inputAmount : Nat
  slippage : Nat
  onlyDirectRoutes : Bool
deriving DecidableEq, Repr

/-- `swap` route-request assembly (src/index.ts:299-311): default to swapping
the user's full stable balance into native; when the stable balance is zero,
swap `Math.floor(0.8 * nativeBalance)` of native into stable instead. -/
def swapOpts (usdcUser solUser : Nat) : SwapOpts :=
  if usdcUser = 0 then
    { inputMint := MINT_SOL
      outputMint := MINT_USDC
      inputAmount := jsFloorMul08 solUser
      slippage := 1
      onlyDirectRoutes := true }
  else
    { inputMint := MINT_USDC
      outputMint := MINT_SOL
      inputAmount := usdcUser
      slippage := 1
      onlyDirectRoutes := true }

set_option maxRecDepth 100000

/-! ### Properties of the double-precision rounding model -/

/-- With adequate fuel, `log2Aux` brackets its input between consecutive
powers of two. -/
theorem log2Aux_bounds : ∀ fuel n, n ≤ fuel →
    (1 ≤ n → 2 ^ log2Aux fuel n ≤ n) ∧ n < 2 ^ (log2Aux fuel n + 1)
  | 0, n, hn => by
    have hn0 : n = 0 := by omega
    subst hn0
    exact ⟨by omega, by simp [log2Aux]⟩
  | fuel + 1, n, hn => by
    by_cases h2 : 2 ≤ n
    · have hrec := log2Aux_bounds fuel (n / 2) (by omega)
      simp only [log2Aux, if_pos h2]
      constructor
      · intro _
        have h1 : 2 ^ log2Aux fuel (n / 2) ≤ n / 2 := hrec.1 (by omega)
        calc 2 ^ (log2Aux fuel (n / 2) + 1) = 2 ^ log2Aux fuel (n / 2) * 2 := pow_succ 2 _
          _ ≤ n / 2 * 2 := Nat.mul_le_mul_right 2 h1
          _ ≤ n := by omega
      · have h1 : n / 2 + 1 ≤ 2 ^ (log2Aux fuel (n / 2) + 1) := Nat.succ_le_of_lt hrec.2
        calc n < (n / 2 + 1) * 2 := by omega
          _ ≤ 2 ^ (log2Aux fuel (n / 2) + 1) * 2 := Nat.mul_le_mul_right 2 h1
          _ = 2 ^ (log2Aux fuel (n / 2) + 1 + 1) := (pow_succ 2 _).symm
    · simp only [log2Aux, if_neg h2]
      exact ⟨fun h1 => by omega, by omega⟩

/-- `2 ^ lg n ≤ n` for positive `n`. -/
theorem lg_le (n : Nat) (hn : 1 ≤ n) : 2 ^ lg n ≤ n :=
  (log2Aux_bounds n n le_rfl).1 hn

/-- `n < 2 ^ (lg n + 1)`. -/
theorem lt_lg_succ (n : Nat) : n < 2 ^ (lg n + 1) :=
  (log2Aux_bounds n n le_rfl).2

/-- A power of two below `n` bounds `lg n` from below. -/
theorem le_lg_of_pow_le (k n : Nat) (h : 2 ^ k ≤ n) : k ≤ lg n := by
  by_contra hc
  push_neg at hc
  have h1 : n < 2 ^ (lg n + 1) := lt_lg_succ n
  have h2 : 2 ^ (lg n + 1) ≤ 2 ^ k := Nat.pow_le_pow_right (by norm_num) (by omega)
  omega

/-- A power of two above `n` bounds `lg n` from above. -/
theorem lg_lt_of_lt_pow (n k : Nat) (hn : 1 ≤ n) (h : n < 2 ^ k) : lg n < k := by
  by_contra hc
  push_neg at hc
  have h1 : 2 ^ lg n ≤ n := lg_le n hn
  have h2 : 2 ^ k ≤ 2 ^ lg n := Nat.pow_le_pow_right (by norm_num) hc
  omega

/-- Integers of at most 53 bits (here: at most `2 ^ 53`) are exactly
representable as doubles: the conversion is the identity. -/
theorem roundSig53_eq_of_le (n : Nat) (hn : n ≤ 2 ^ 53) : roundSig53 n = n := by
  rcases Nat.lt_or_ge n (2 ^ 53) with h | h
  · unfold roundSig53
    rw [if_pos h]
  · have hn53 : n = 2 ^ 53 := by omega
    subst hn53
    decide

/-- Rounding to 53 significant bits never falls below the round-down grid
point. -/
theorem roundSig53_lower (p : Nat) (hp : 2 ^ 53 ≤ p) :
    p / 2 ^ (lg p + 1 - 53) * 2 ^ (lg p + 1 - 53) ≤ roundSig53 p := by
  have hnot : ¬ p < 2 ^ 53 := not_lt.mpr hp
  simp only [roundSig53, if_neg hnot]
  split_ifs <;>
    first
      | exact le_rfl
      | exact Nat.mul_le_mul_right _ (Nat.le_succ _)

/-- Rounding to 53 significant bits overshoots by at most half an ulp. -/
theorem roundSig53_upper (p : Nat) (hp : 2 ^ 53 ≤ p) :
    roundSig53 p ≤ p + 2 ^ (lg p + 1 - 53 - 1) := by
  have hnot : ¬ p < 2 ^ 53 := not_lt.mpr hp
  have hs1 : 53 ≤ lg p := le_lg_of_pow_le 53 p hp
  simp only [roundSig53, if_neg hnot]
  have hdm : p / 2 ^ (lg p + 1 - 53) * 2 ^ (lg p + 1 - 53) + p % 2 ^ (lg p + 1 - 53) = p := by
    rw [Nat.mul_comm]
    exact Nat.div_add_mod p _
  have hpow : 2 ^ (lg p + 1 - 53) = 2 * 2 ^ (lg p + 1 - 53 - 1) := by
    rw [← pow_succ']
    congr 1
    omega
  split_ifs with h1 h2 h3
  · exact le_trans (Nat.div_mul_le_self p _) (Nat.le_add_right _ _)
  · rw [add_mul, one_mul]
    generalize (2 : Nat) ^ (lg p + 1 - 53 - 1) = H at h2 hpow ⊢
    generalize p / 2 ^ (lg p + 1 - 53) * 2 ^ (lg p + 1 - 53) = QE at hdm ⊢
    generalize p % 2 ^ (lg p + 1 - 53) = R at hdm h2
    generalize (2 : Nat) ^ (lg p + 1 - 53) = E at hdm hpow ⊢
    omega
  · exact le_trans (Nat.div_mul_le_self p _) (Nat.le_add_right _ _)
  · rw [add_mul, one_mul]
    generalize (2 : Nat) ^ (lg p + 1 - 53 - 1) = H at h1 h2 hpow ⊢
    generalize p / 2 ^ (lg p + 1 - 53) * 2 ^ (lg p + 1 - 53) = QE at hdm ⊢
    generalize p % 2 ^ (lg p + 1 - 53) = R at hdm h1 h2
    generalize (2 : Nat) ^ (lg p + 1 - 53) = E at hdm hpow ⊢
    omega

/-- For native balances up to `2 ^ 50` lamports the double-precision
computation `Math.floor(n * 0.8)` coincides with the exact `⌊4n/5⌋`. -/
theorem jsFloorMul08_eq (n : Nat) (hn : n ≤ 2 ^ 50) : jsFloorMul08 n = 4 * n / 5 := by
  rcases Nat.lt_or_ge (n * M08) (2 ^ 53) with hsmall | hbig
  · have hn1 : n ≤ 1 := by
      by_contra hc
      push_neg at hc
      have h1 : 2 * 2 ^ 52 ≤ n * M08 := Nat.mul_le_mul hc (by norm_num [M08])
      norm_num at h1
      omega
    interval_cases n <;> decide
  · have hn1 : 1 ≤ n := by
      rcases Nat.eq_zero_or_pos n with h | h
      · subst h; norm_num [M08] at hbig
      · exact h
    have hub : n * M08 < 2 ^ 103 := by
      calc n * M08 ≤ 2 ^ 50 * M08 := Nat.mul_le_mul_right _ hn
        _ < 2 ^ 103 := by norm_num [M08]
    have hp1 : 1 ≤ n * M08 := by omega
    have hs53 : 53 ≤ lg (n * M08) := le_lg_of_pow_le 53 _ hbig
    have hslt : lg (n * M08) < 103 := lg_lt_of_lt_pow _ 103 hp1 hub
    have hlow : 2 ^ (lg (n * M08) + 1 - 53) * 2 ^ 52 ≤ n * M08 := by
      calc 2 ^ (lg (n * M08) + 1 - 53) * 2 ^ 52
          = 2 ^ (lg (n * M08) + 1 - 53 + 52) := (pow_add 2 _ 52).symm
        _ = 2 ^ lg (n * M08) := by congr 1; omega
        _ ≤ n * M08 := lg_le _ hp1
    have hk5 : (4 * n / 5) * 2 ^ 53 ≤ n * M08 := by
      have h1 : 5 * ((4 * n / 5) * 2 ^ 53) ≤ 5 * (n * M08) := by
        calc 5 * ((4 * n / 5) * 2 ^ 53) = (5 * (4 * n / 5)) * 2 ^ 53 := by ring
          _ ≤ (4 * n) * 2 ^ 53 := Nat.mul_le_mul_right _ (by omega)
          _ = n * (4 * 2 ^ 53) := by ring
          _ ≤ n * (5 * M08) := Nat.mul_le_mul_left n (by norm_num [M08])
          _ = 5 * (n * M08) := by ring
      omega
    have hdvd : (2 : Nat) ^ (lg (n * M08) + 1 - 53) ∣ (4 * n / 5) * 2 ^ 53 :=
      Dvd.dvd.mul_left (pow_dvd_pow 2 (by omega)) _
    have hgrid : (4 * n / 5) * 2 ^ 53 ≤
        n * M08 / 2 ^ (lg (n * M08) + 1 - 53) * 2 ^ (lg (n * M08) + 1 - 53) := by
      calc (4 * n / 5) * 2 ^ 53
          = (4 * n / 5) * 2 ^ 53 / 2 ^ (lg (n * M08) + 1 - 53) * 2 ^ (lg (n * M08) + 1 - 53) :=
            (Nat.div_mul_cancel hdvd).symm
        _ ≤ n * M08 / 2 ^ (lg (n * M08) + 1 - 53) * 2 ^ (lg (n * M08) + 1 - 53) :=
            Nat.mul_le_mul_right _ (Nat.div_le_div_right hk5)
    have hlower : (4 * n / 5) * 2 ^ 53 ≤ roundSig53 (n * M08) :=
      le_trans hgrid (roundSig53_lower _ hbig)
    have hH : 2 ^ (lg (n * M08) + 1 - 53 - 1) * 2 ^ 53 ≤ n * M08 := by
      calc 2 ^ (lg (n * M08) + 1 - 53 - 1) * 2 ^ 53
          = 2 ^ (lg (n * M08) + 1 - 53 - 1 + 53) := (pow_add 2 _ 53).symm
        _ ≤ 2 ^ (lg (n * M08) + 1 - 53 + 52) := Nat.pow_le_pow_right (by norm_num) (by omega)
        _ = 2 ^ (lg (n * M08) + 1 - 53) * 2 ^ 52 := pow_add 2 _ 52
        _ ≤ n * M08 := hlow
    have h5p : 5 * (n * M08) = n * 36028797018963970 := by
      norm_num [M08]; ring
    have hupper : roundSig53 (n * M08) < (4 * n / 5 + 1) * 2 ^ 53 := by
      have hu := roundSig53_upper _ hbig
      generalize (2 : Nat) ^ (lg (n * M08) + 1 - 53 - 1) = H at hu hH
      generalize roundSig53 (n * M08) = R at hu ⊢
      generalize hpd : n * M08 = p at hu hH h5p
      omega
    show roundSig53 (n * M08) / 2 ^ 53 = 4 * n / 5
    generalize hR : roundSig53 (n * M08) = R at hlower hupper ⊢
    omega

/-! ### Structural lemmas about transaction assembly -/

/-- Adding a signer twice is the same as adding it once (JavaScript `Set`
semantics). -/
theorem addSigner_idem (s : List Pubkey) (k : Pubkey) :
    addSigner (addSigner s k) k = addSigner s k := by
  by_cases h : k ∈ s <;> simp [addSigner, h]

/-- `addSigner` keeps the signer list duplicate-free. -/
theorem addSigner_nodup (s : List Pubkey) (k : Pubkey) (h : s.Nodup) :
    (addSigner s k).Nodup := by
  by_cases hk : k ∈ s
  · simpa [addSigner, hk] using h
  · simp [addSigner, hk, List.nodup_append, h]

/-- The instruction list built by the token-account loop: for each account, a
transfer of the full balance to the receiver's associated address exactly when
the balance is nonzero and the mint is not the wrapped-native mint, followed
unconditionally by a close instruction. -/
theorem closeTokenAccounts_ixs : ∀ (accounts : List TokenAccount) (receiver owner : Pubkey)
    (st : TxState),
    (closeTokenAccounts receiver owner accounts st).1 =
      st.1 ++ accounts.flatMap fun a =>
        (if 0 < a.amount ∧ a.mint ≠ MINT_SOL then
          [Instruction.transferToken a.pubkey (getAssociatedTokenAddress a.mint receiver)
            owner a.amount]
        else []) ++ [Instruction.closeAccount a.pubkey receiver owner]
  | [], receiver, owner, st => by simp [closeTokenAccounts]
  | a :: rest, receiver, owner, (ixs, sgns) => by
    show (closeTokenAccounts receiver owner rest
        (ixs ++
          (if 0 < a.amount ∧ a.mint ≠ MINT_SOL then
            [Instruction.transferToken a.pubkey (getAssociatedTokenAddress a.mint receiver)
              owner a.amount]
          else []) ++ [Instruction.closeAccount a.pubkey receiver owner],
        addSigner sgns owner)).1 = _
    rw [closeTokenAccounts_ixs rest receiver owner _]
    simp [List.append_assoc]

/-- The token-account loop keeps the signer list duplicate-free. -/
theorem closeTokenAccounts_nodup : ∀ (accounts : List TokenAccount) (receiver owner : Pubkey)
    (st : TxState), st.2.Nodup → (closeTokenAccounts receiver owner accounts st).2.Nodup
  | [], _, _, _, h => h
  | _ :: rest, receiver, owner, (_, sgns), h =>
    closeTokenAccounts_nodup rest receiver owner _ (addSigner_nodup sgns owner h)

/-- The signer list produced by the native sweep. -/
theorem sweepNative_signers (user receiver owner : Pubkey) (balance : Nat) (st : TxState) :
    (sweepNative user receiver owner balance st).2 =
      if 0 < balance then addSigner st.2 owner else st.2 := by
  unfold sweepNative
  by_cases hb : 0 < balance <;> simp [hb]

/-- The native sweep keeps the signer list duplicate-free. -/
theorem sweepNative_nodup (user receiver owner : Pubkey) (balance : Nat) (st : TxState)
    (h : st.2.Nodup) : (sweepNative user receiver owner balance st).2.Nodup := by
  rw [sweepNative_signers]
  by_cases hb : 0 < balance
  · rw [if_pos hb]
    exact addSigner_nodup _ _ h
  · rw [if_neg hb]
    exact h

/-- Per-party processing keeps the signer list duplicate-free. -/
theorem closeParty_nodup (user receiver : Pubkey) (st : TxState) (p : PartyState)
    (h : st.2.Nodup) : (closeParty user receiver st p).2.Nodup :=
  sweepNative_nodup _ _ _ _ _ (closeTokenAccounts_nodup _ _ _ _ h)

/-- The full `accounts-close` assembly produces a duplicate-free signer
list. -/
theorem accountsCloseTx_nodup (user receiver : Pubkey) (parties : List PartyState) :
    (accountsCloseTx user receiver parties).2.Nodup := by
  suffices h : ∀ st : TxState, st.2.Nodup →
      (parties.foldl (closeParty user receiver) st).2.Nodup from h ([], []) (by simp)
  induction parties with
  | nil => exact fun st h => h
  | cons p rest ih => exact fun st h => ih _ (closeParty_nodup _ _ _ _ h)

/-! ### Claim theorems -/

/-- C1: the source guards the native sweep only by `balance > 0` *before* the
fee deduction, so when the deduction makes the computed balance zero or
negative a transfer instruction is still appended, contradicting the claimed
lower-bound guard.  Concretely: the user owns one stable-token account (so one
signer is already recorded) and 3000 lamports; the code appends a native
transfer of `3000 - 1 * 5000 = -2000` lamports. -/
theorem accountsClose_sweep_no_guard :
    accountsClose "user" "recv" ⟨"coll", [], 0⟩ ⟨"user", [⟨"acct", MINT_USDC, 500⟩], 3000⟩ =
      .submitted
        [Instruction.transferToken "acct" (getAssociatedTokenAddress MINT_USDC "recv")
          "user" 500,
         Instruction.closeAccount "acct" "recv" "user",
         Instruction.transferNative "user" "recv" (-2000)]
        ["user"] := by decide

/-- C4: the native sweep transfers `balance - signerCount * 5000` lamports
when the swept party is the user identity, where `signerCount` is the number
of distinct signers collected before the party's own sweep signature is
recorded, and transfers the full balance with no deduction for any other
party (the collector). -/
theorem accountsClose_fee_deduction (user receiver : Pubkey) (p : PartyState) (st : TxState)
    (hbal : 0 < p.nativeBalance) :
    (p.key = user →
      (closeParty user receiver st p).1 =
        (closeTokenAccounts receiver p.key p.tokenAccounts st).1 ++
          [Instruction.transferNative p.key receiver
            ((p.nativeBalance : Int) -
              (closeTokenAccounts receiver p.key p.tokenAccounts st).2.length * 5000)]) ∧
    (p.key ≠ user →
      (closeParty user receiver st p).1 =
        (closeTokenAccounts receiver p.key p.tokenAccounts st).1 ++
          [Instruction.transferNative p.key receiver (p.nativeBalance : Int)]) := by
  constructor
  · intro h
    simp [closeParty, sweepNative, hbal, h]
  · intro h
    simp [closeParty, sweepNative, hbal, h]

/-- Witness for C4: the end-to-end scenario of spec §8 — the user owns one
stable-token account with balance 500 and 10000 lamports; one signer (the
user, via the close instruction) is recorded when the sweep fires, so the
sweep carries `10000 - 1 * 5000 = 5000` lamports. -/
theorem accountsClose_fee_deduction_witness :
    (closeParty "user" "recv" ([], []) ⟨"user", [⟨"acct", MINT_USDC, 500⟩], 10000⟩).1 =
      (closeTokenAccounts "recv" "user" [⟨"acct", MINT_USDC, 500⟩] ([], [])).1 ++
        [Instruction.transferNative "user" "recv" 5000] := by
  have h := (accountsClose_fee_deduction "user" "recv"
    ⟨"user", [⟨"acct", MINT_USDC, 500⟩], 10000⟩ ([], []) (by norm_num)).1 rfl
  rw [h]
  norm_num [closeTokenAccounts, addSigner]

/-- C5: the token-account loop of `accounts-close` appends, for every
enumerated account in order, a full-balance transfer to the receiver's
associated address exactly when the account balance is nonzero and the mint
differs from the wrapped-native mint (so never for the wrapped-native mint),
followed unconditionally by a close instruction for the account. -/
theorem accountsClose_token_loop (receiver owner : Pubkey) (accounts : List TokenAccount)
    (st : TxState) :
    (closeTokenAccounts receiver owner accounts st).1 =
      st.1 ++ (accounts.flatMap fun a =>
        (if 0 < a.amount ∧ a.mint ≠ MINT_SOL then
          [Instruction.transferToken a.pubkey (getAssociatedTokenAddress a.mint receiver)
            owner a.amount]
        else []) ++ [Instruction.closeAccount a.pubkey receiver owner]) ∧
    ∀ a ∈ accounts,
      Instruction.closeAccount a.pubkey receiver owner ∈
        (closeTokenAccounts receiver owner accounts st).1 ∧
      (0 < a.amount ∧ a.mint ≠ MINT_SOL →
        Instruction.transferToken a.pubkey (getAssociatedTokenAddress a.mint receiver)
          owner a.amount ∈ (closeTokenAccounts receiver owner accounts st).1) := by
  refine ⟨closeTokenAccounts_ixs accounts receiver owner st, fun a ha => ⟨?_, fun hcond => ?_⟩⟩
  · rw [closeTokenAccounts_ixs]
    refine List.mem_append_right _ ?_
    rw [List.mem_flatMap]
    exact ⟨a, ha, List.mem_append_right _ (List.mem_singleton_self _)⟩
  · rw [closeTokenAccounts_ixs]
    refine List.mem_append_right _ ?_
    rw [List.mem_flatMap]
    refine ⟨a, ha, List.mem_append_left _ ?_⟩
    rw [if_pos hcond]
    exact List.mem_singleton_self _

/-- Witness for C5: an account holding the wrapped-native mint with nonzero
balance still gets its close instruction appended. -/
theorem accountsClose_token_loop_witness :
    Instruction.closeAccount "w" "recv" "own" ∈
      (closeTokenAccounts "recv" "own" [⟨"w", MINT_SOL, 7⟩] ([], [])).1 :=
  ((accountsClose_token_loop "recv" "own" [⟨"w", MINT_SOL, 7⟩] ([], [])).2
    ⟨"w", MINT_SOL, 7⟩ (List.mem_singleton_self _)).1

/-- C6: the token-balance lookup recovers "account not found" and "invalid
account owner" failures as a zero balance, re-raises every other lookup
error unchanged, and returns the account's amount on success. -/
theorem getTokenBalance_spec :
    (∀ amount : Nat, getTokenBalance (.ok amount) = .ok amount) ∧
    getTokenBalance (.error "TokenAccountNotFoundError") = .ok 0 ∧
    getTokenBalance (.error "TokenInvalidAccountOwnerError") = .ok 0 ∧
    (∀ errName : String, errName ≠ "TokenAccountNotFoundError" →
      errName ≠ "TokenInvalidAccountOwnerError" →
      getTokenBalance (.error errName) = .error errName) := by
  refine ⟨fun amount => rfl, by simp [getTokenBalance], by simp [getTokenBalance],
    fun errName h1 h2 => ?_⟩
  simp [getTokenBalance, h1, h2]

/-- Witness for C6: a generic RPC failure propagates unchanged. -/
theorem getTokenBalance_spec_witness :
    getTokenBalance (.error "FetchError") = .error "FetchError" :=
  getTokenBalance_spec.2.2.2 "FetchError" (by decide) (by decide)

/-- Counterexample for C2: with a zero stable balance the code selects the
native mint as *input* and the stable mint as output — the opposite of the
claimed stable-to-native direction. -/
theorem swap_direction_counterexample :
    (swapOpts 0 2000000000).inputMint = MINT_SOL ∧
    (swapOpts 0 2000000000).outputMint = MINT_USDC ∧
    MINT_SOL ≠ MINT_USDC := by
  refine ⟨rfl, rfl, by decide⟩

/-- C2 (amended): the swap selects the native-to-stable direction when the
user's stable balance is zero and the stable-to-native direction otherwise;
the input amount is the double-precision `Math.floor(0.8 * nativeBalance)` in
the native-source case — equal to the exact `⌊0.8 * nativeBalance⌋` whenever
the native balance is at most `2 ^ 50` — and the full stable balance
otherwise. -/
theorem swap_direction_amended (usdcUser solUser : Nat) :
    (usdcUser = 0 →
      (swapOpts usdcUser solUser).inputMint = MINT_SOL ∧
      (swapOpts usdcUser solUser).outputMint = MINT_USDC ∧
      (swapOpts usdcUser solUser).inputAmount = jsFloorMul08 solUser ∧
      (solUser ≤ 2 ^ 50 → (swapOpts usdcUser solUser).inputAmount = 4 * solUser / 5)) ∧
    (usdcUser ≠ 0 →
      (swapOpts usdcUser solUser).inputMint = MINT_USDC ∧
      (swapOpts usdcUser solUser).outputMint = MINT_SOL ∧
      (swapOpts usdcUser solUser).inputAmount = usdcUser) := by
  constructor
  · intro h
    subst h
    exact ⟨rfl, rfl, rfl, fun hb => jsFloorMul08_eq solUser hb⟩
  · intro h
    simp [swapOpts, h]

/-- Witness for C2 (amended), at stable balance 0 and native balance
2000000000. -/
theorem swap_direction_amended_witness :
    (swapOpts 0 2000000000).inputMint = MINT_SOL ∧
    (swapOpts 0 2000000000).inputAmount = 1600000000 := by
  have h := (swap_direction_amended 0 2000000000).1 rfl
  refine ⟨h.1, ?_⟩
  rw [h.2.2.2 (by norm_num)]

/-- Counterexample for C3: at native balance 5629499534213121 (with zero
stable balance) the double-precision product `5629499534213121 * 0.8` rounds
up across the integer boundary, so the requested input amount exceeds the
exact `⌊0.8 * balance⌋` by one. -/
theorem swap_amount_precision_counterexample :
    (swapOpts 0 5629499534213121).inputAmount = 4503599627370497 ∧
    4 * 5629499534213121 / 5 = 4503599627370496 := by
  constructor
  · decide
  · norm_num

/-- C3 (amended): with zero stable balance the swap requests a route from the
native mint to the stable mint with input amount
`Math.floor(0.8 * nativeBalance)` in double precision, which equals the exact
`⌊0.8 * nativeBalance⌋` for native balances up to `2 ^ 50`; otherwise it
requests the user's full stable balance from the stable mint to the native
mint.  In particular, for stable balance 0 and native balance 2000000000 the
requested route is native → stable with input amount 1600000000. -/
theorem swap_route_request (solUser : Nat) (hb : solUser ≤ 2 ^ 50) :
    ((swapOpts 0 solUser).inputMint = MINT_SOL ∧
      (swapOpts 0 solUser).outputMint = MINT_USDC ∧
      (swapOpts 0 solUser).inputAmount = 4 * solUser / 5) ∧
    (∀ usdcUser : Nat, usdcUser ≠ 0 →
      (swapOpts usdcUser solUser).inputMint = MINT_USDC ∧
      (swapOpts usdcUser solUser).outputMint = MINT_SOL ∧
      (swapOpts usdcUser solUser).inputAmount = usdcUser) ∧
    ((swapOpts 0 2000000000).inputMint = MINT_SOL ∧
      (swapOpts 0 2000000000).outputMint = MINT_USDC ∧
      (swapOpts 0 2000000000).inputAmount = 1600000000) := by
  refine ⟨⟨rfl, rfl, jsFloorMul08_eq solUser hb⟩, fun u hu => by simp [swapOpts, hu], rfl, rfl, ?_⟩
  show jsFloorMul08 2000000000 = 1600000000
  rw [jsFloorMul08_eq 2000000000 (by norm_num)]

/-- Witness for C3 (amended), instantiated at the end-to-end scenario
balances. -/
theorem swap_route_request_witness :
    (swapOpts 0 2000000000).outputMint = MINT_USDC ∧
    (swapOpts 0 2000000000).inputAmount = 1600000000 := by
  have h := swap_route_request 2000000000 (by norm_num)
  exact ⟨h.2.2.2.1, h.2.2.2.2⟩

/-- Counterexample for C7: when all four associated accounts exist, the code
prints the literal message "Noting to create" (a typo in the source), not
"nothing to create" as the claim quotes it. -/
theorem accountsCreate_message_counterexample :
    accountsCreate "user" "coll" (fun _ => true) = .printed "Noting to create" ∧
    "Noting to create" ≠ "nothing to create" :=
  ⟨rfl, by decide⟩

/-- C7 (amended): `accounts-create` issues zero instructions and prints
"Noting to create" (the source's literal message) when all four associated
accounts exist; otherwise it appends exactly one creation instruction, with
the user identity as payer, for each (owner, mint) combination whose account
is absent, and submits with the user as sole signer. -/
theorem accountsCreate_spec (user collector : Pubkey) (accountExists : Pubkey → Bool)
    (huc : user ≠ collector) :
    ((∀ owner ∈ ([user, collector] : List Pubkey),
        ∀ mint ∈ ([MINT_SOL, MINT_USDC] : List Pubkey),
        accountExists (getAssociatedTokenAddress mint owner) = true) →
      accountsCreate user collector accountExists = .printed "Noting to create") ∧
    (((accountsCreateIxs user collector accountExists).count
        (Instruction.createATA user (getAssociatedTokenAddress MINT_SOL user) user MINT_SOL) =
          if accountExists (getAssociatedTokenAddress MINT_SOL user) then 0 else 1) ∧
      ((accountsCreateIxs user collector accountExists).count
        (Instruction.createATA user (getAssociatedTokenAddress MINT_USDC user) user MINT_USDC) =
          if accountExists (getAssociatedTokenAddress MINT_USDC user) then 0 else 1) ∧
      ((accountsCreateIxs user collector accountExists).count
        (Instruction.createATA user (getAssociatedTokenAddress MINT_SOL collector)
          collector MINT_SOL) =
          if accountExists (getAssociatedTokenAddress MINT_SOL collector) then 0 else 1) ∧
      ((accountsCreateIxs user collector accountExists).count
        (Instruction.createATA user (getAssociatedTokenAddress MINT_USDC collector)
          collector MINT_USDC) =
          if accountExists (getAssociatedTokenAddress MINT_USDC collector) then 0 else 1)) ∧
    (accountsCreateIxs user collector accountExists ≠ [] →
      accountsCreate user collector accountExists =
        .submitted (accountsCreateIxs user collector accountExists) [user]) := by
  have huc' : collector ≠ user := Ne.symm huc
  have hmm : MINT_SOL ≠ MINT_USDC := by decide
  have hmm' : MINT_USDC ≠ MINT_SOL := by decide
  refine ⟨?_, ⟨?_, ?_, ?_, ?_⟩, ?_⟩
  · intro hall
    have h1 := hall user (by simp) MINT_SOL (by simp)
    have h2 := hall user (by simp) MINT_USDC (by simp)
    have h3 := hall collector (by simp) MINT_SOL (by simp)
    have h4 := hall collector (by simp) MINT_USDC (by simp)
    simp [accountsCreate, accountsCreateIxs, h1, h2, h3, h4]
  · by_cases e1 : accountExists (getAssociatedTokenAddress MINT_SOL user) <;>
      by_cases e2 : accountExists (getAssociatedTokenAddress MINT_USDC user) <;>
      by_cases e3 : accountExists (getAssociatedTokenAddress MINT_SOL collector) <;>
      by_cases e4 : accountExists (getAssociatedTokenAddress MINT_USDC collector) <;>
      simp [accountsCreateIxs, e1, e2, e3, e4, huc, huc', hmm, hmm',
        List.count_append, List.count_cons]
  · by_cases e1 : accountExists (getAssociatedTokenAddress MINT_SOL user) <;>
      by_cases e2 : accountExists (getAssociatedTokenAddress MINT_USDC user) <;>
      by_cases e3 : accountExists (getAssociatedTokenAddress MINT_SOL collector) <;>
      by_cases e4 : accountExists (getAssociatedTokenAddress MINT_USDC collector) <;>
      simp [accountsCreateIxs, e1, e2, e3, e4, huc, huc', hmm, hmm',
        List.count_append, List.count_cons]
  · by_cases e1 : accountExists (getAssociatedTokenAddress MINT_SOL user) <;>
      by_cases e2 : accountExists (getAssociatedTokenAddress MINT_USDC user) <;>
      by_cases e3 : accountExists (getAssociatedTokenAddress MINT_SOL collector) <;>
      by_cases e4 : accountExists (getAssociatedTokenAddress MINT_USDC collector) <;>
      simp [accountsCreateIxs, e1, e2, e3, e4, huc, huc', hmm, hmm',
        List.count_append, List.count_cons]
  · by_cases e1 : accountExists (getAssociatedTokenAddress MINT_SOL user) <;>
      by_cases e2 : accountExists (getAssociatedTokenAddress MINT_USDC user) <;>
      by_cases e3 : accountExists (getAssociatedTokenAddress MINT_SOL collector) <;>
      by_cases e4 : accountExists (getAssociatedTokenAddress MINT_USDC collector) <;>
      simp [accountsCreateIxs, e1, e2, e3, e4, huc, huc', hmm, hmm',
        List.count_append, List.count_cons]
  · intro h
    have hlen : (accountsCreateIxs user collector accountExists).length ≠ 0 := by
      simpa [List.length_eq_zero] using h
    simp [accountsCreate, hlen]

/-- Witness for C7 (amended): with no account existing, the transaction is
submitted with the user as sole signer. -/
theorem accountsCreate_spec_witness :
    accountsCreate "u" "c" (fun _ => false) =
      .submitted (accountsCreateIxs "u" "c" (fun _ => false)) ["u"] :=
  (accountsCreate_spec "u" "c" (fun _ => false) (by decide)).2.2 (by decide)

/-- C8: a transaction assembled by `accounts-create` or `accounts-close` is
submitted only when it carries at least one instruction, and the signer
collection passed at submission is deduplicated by signer identity — adding
the same party twice leaves a single entry. -/
theorem submit_guard_and_signer_dedup :
    (∀ (user collector : Pubkey) (accountExists : Pubkey → Bool)
        (ixs : List Instruction) (sgns : List Pubkey),
      accountsCreate user collector accountExists = .submitted ixs sgns →
        ixs ≠ [] ∧ sgns.Nodup) ∧
    (∀ (user receiver : Pubkey) (cSt uSt : PartyState)
        (ixs : List Instruction) (sgns : List Pubkey),
      accountsClose user receiver cSt uSt = .submitted ixs sgns →
        ixs ≠ [] ∧ sgns.Nodup) ∧
    (∀ (s : List Pubkey) (k : Pubkey), s.Nodup →
      (addSigner s k).Nodup ∧ addSigner (addSigner s k) k = addSigner s k) := by
  refine ⟨?_, ?_, fun s k h => ⟨addSigner_nodup s k h, addSigner_idem s k⟩⟩
  · intro user collector accountExists ixs sgns h
    simp only [accountsCreate] at h
    by_cases hlen : (accountsCreateIxs user collector accountExists).length = 0
    · rw [if_pos hlen] at h
      exact absurd h (by simp)
    · rw [if_neg hlen] at h
      cases h
      exact ⟨fun hnil => hlen (by rw [hnil]; rfl), by simp⟩
  · intro user receiver cSt uSt ixs sgns h
    simp only [accountsClose] at h
    by_cases hlen : (accountsCloseTx user receiver [cSt, uSt]).1.length = 0
    · rw [if_pos hlen] at h
      exact absurd h (by simp)
    · rw [if_neg hlen] at h
      cases h
      exact ⟨fun hnil => hlen (by rw [hnil]; rfl),
        accountsCloseTx_nodup user receiver [cSt, uSt]⟩

/-- Witness for C8, on an `accounts-close` run that sweeps 5 lamports from the
user. -/
theorem submit_guard_and_signer_dedup_witness :
    ([Instruction.transferNative "u" "r" 5] : List Instruction) ≠ [] ∧
      (["u"] : List Pubkey).Nodup :=
  submit_guard_and_signer_dedup.2.1 "u" "r" ⟨"c", [], 0⟩ ⟨"u", [], 5⟩
    [Instruction.transferNative "u" "r" 5] ["u"] (by decide)

/-- C9: `accounts-print` does not mutate the session context, and each
displayed value is the raw balance divided by the token's scale — `1e9` for
native and wrapped-native balances, `1e6` for stable-token balances (stated
multiplicatively over exact rationals). -/
theorem accountsPrint_scaling (info : Balances) :
    (accountsPrint info).1 = info ∧
    (accountsPrint info).2.userSol * 10 ^ 9 = (info.solUser : ℚ) ∧
    (accountsPrint info).2.userWsol * 10 ^ 9 = (info.wsolUser : ℚ) ∧
    (accountsPrint info).2.userUsdc * 10 ^ 6 = (info.usdcUser : ℚ) ∧
    (accountsPrint info).2.collectorSol * 10 ^ 9 = (info.solCollector : ℚ) ∧
    (accountsPrint info).2.collectorWsol * 10 ^ 9 = (info.wsolCollector : ℚ) ∧
    (accountsPrint info).2.collectorUsdc * 10 ^ 6 = (info.usdcCollector : ℚ) :=
  ⟨rfl, div_mul_cancel₀ _ (by norm_num), div_mul_cancel₀ _ (by norm_num),
    div_mul_cancel₀ _ (by norm_num), div_mul_cancel₀ _ (by norm_num),
    div_mul_cancel₀ _ (by norm_num), div_mul_cancel₀ _ (by norm_num)⟩

/-- C10: each token balance stored in the snapshot is the raw lookup amount
converted to a double; the conversion is exact for amounts up to `2 ^ 53` and
lossy beyond (at `2 ^ 53 + 1` the stored value differs from the raw
amount). -/
theorem snapshot_double_precision (solU solC wU wC uU uC : Nat) :
    ((snapshotBalances solU solC wU wC uU uC).wsolUser = roundSig53 wU ∧
      (snapshotBalances solU solC wU wC uU uC).wsolCollector = roundSig53 wC ∧
      (snapshotBalances solU solC wU wC uU uC).usdcUser = roundSig53 uU ∧
      (snapshotBalances solU solC wU wC uU uC).usdcCollector = roundSig53 uC) ∧
    (wU ≤ 2 ^ 53 → (snapshotBalances solU solC wU wC uU uC).wsolUser = wU) ∧
    (wC ≤ 2 ^ 53 → (snapshotBalances solU solC wU wC uU uC).wsolCollector = wC) ∧
    (uU ≤ 2 ^ 53 → (snapshotBalances solU solC wU wC uU uC).usdcUser = uU) ∧
    (uC ≤ 2 ^ 53 → (snapshotBalances solU solC wU wC uU uC).usdcCollector = uC) ∧
    (snapshotBalances solU solC (2 ^ 53 + 1) wC uU uC).wsolUser ≠ 2 ^ 53 + 1 := by
  refine ⟨⟨rfl, rfl, rfl, rfl⟩, fun h => roundSig53_eq_of_le _ h,
    fun h => roundSig53_eq_of_le _ h, fun h => roundSig53_eq_of_le _ h,
    fun h => roundSig53_eq_of_le _ h, ?_⟩
  show roundSig53 (2 ^ 53 + 1) ≠ 2 ^ 53 + 1
  decide

/-- Witness for C10: a small raw amount is stored exactly. -/
theorem snapshot_double_precision_witness :
    (snapshotBalances 1 2 300 400 500 600).wsolUser = 300 :=
  (snapshot_double_precision 1 2 300 400 500 600).2.1 (by norm_num)
